import Mathlib

/-!
Verification of the Ebook-Reader core against its specification.

The repository contains four Python variants of an offline ebook reader
(plain text, PDF, EPUB) built on wxPython with a pyttsx3 speech service.
This file gives a shallow embedding of the algorithmic core:

* the pagination and chunking algorithm (MainFrame._chunk_text,
  ReaderPanel._read_txt_pages),
* the per-format extraction post-processing (ReaderPanel._read_pdf_pages,
  ReaderPanel._read_epub_pages, ReaderPanel._load_file),
* the navigation state machine (ReaderPanel.on_next_page,
  ReaderPanel.on_prev_page, ReaderPanel._update_display),
* the search routine (ReaderPanel.on_search),
* the speech coordinator (TTSService.speak, TTSService.stop,
  TTSService._speak_thread) as an interleaving model.

File reads, widget calls and the actual synthesis library are external
collaborators; the embedding takes their outputs as parameters.  Texts
are modelled as List Char, matching Python string indexing and slicing.
-/

namespace EbookReader

/-- Python str.lower, modelled per character.  Faithful on the ASCII
range, which is all the verified examples use. -/
def pyLower (s : List Char) : List Char := s.map Char.toLower

/-- Python str.strip with the default whitespace set: remove leading and
trailing whitespace characters. -/
def pyStrip (s : List Char) : List Char :=
  (((s.dropWhile Char.isWhitespace).reverse).dropWhile Char.isWhitespace).reverse

/-- Fuel-driven worker for chunking.  Each step emits the slice
content[0 : c] and continues on content[c :], exactly the windows the
source comprehension [content[i:i+chunk_size] for i in range(0,
len(content), chunk_size)] produces; the fuel bounds the number of loop
iterations and content.length is always enough fuel when c > 0. -/
def chunkTextFuel : Nat → List Char → Nat → List (List Char)
  | 0, _, _ => []
  | _ + 1, [], _ => []
  | fuel + 1, a :: t, c => (a :: t).take c :: chunkTextFuel fuel ((a :: t).drop c) c

/-- MainFrame._chunk_text from ebook_reader (3).py, also the body of
ReaderPanel._read_txt_pages in ebook_reader (2).py: split text into
consecutive fixed-length windows of c characters; the final window may
be shorter.  Python range(0, len, 0) would raise, so c = 0 is mapped to
the empty result and all claims assume c > 0. -/
def chunkText (content : List Char) (c : Nat) : List (List Char) :=
  if c = 0 then [] else chunkTextFuel content.length content c

/-- ReaderPanel._read_txt_pages from ebook_reader (2).py, with the file
content (read with errors replaced) taken as a parameter: chunk the text
by 3000 characters. -/
def readTxtPages (content : List Char) : List (List Char) :=
  chunkText content 3000

/-- Outcome of the pypdf extraction step that _read_pdf_pages consumes:
the library may be missing, reading may raise, or it yields the raw
extracted text of each physical page in page order. -/
inductive PdfExtract
  | missingLib
  | extractError (msg : List Char)
  | pages (ps : List (List Char))

/-- Keep predicate of _read_pdf_pages: the Python truthiness test
if txt.strip() keeps a page exactly when its stripped text is
non-empty. -/
def keepPdfPage (t : List Char) : Bool := !(pyStrip t).isEmpty

/-- ReaderPanel._read_pdf_pages from ebook_reader (2).py: report a
diagnostic if pypdf is missing or raised; otherwise keep, in page
order, each physical page whose extracted text strips to non-empty, and
fall back to a single diagnostic page when nothing is kept. -/
def readPdfPages : PdfExtract → List (List Char)
  | .missingLib => ["Library missing: pypdf".data]
  | .extractError e => ["Error reading PDF: ".data ++ e]
  | .pages ps =>
    let kept := ps.filter keepPdfPage
    if kept.isEmpty then ["No text found in PDF.".data] else kept

/-- Outcome of the ebooklib extraction step that _read_epub_pages
consumes: missing libraries, a raised error, or the optional DC title
metadata together with the text of each ITEM_DOCUMENT manifest item in
document order. -/
inductive EpubExtract
  | missingLib
  | extractError (msg : List Char)
  | content (title : Option (List Char)) (sections : List (List Char))

/-- Per-section body of the item loop in _read_epub_pages from
ebook_reader (2).py: a section whose stripped text has length at most
100 contributes nothing; a kept section longer than the 3000-character
chunk size is split into windows, otherwise it becomes one page. -/
def epubSectionPages (text : List Char) : List (List Char) :=
  if 100 < (pyStrip text).length then
    if 3000 < text.length then chunkText text 3000 else [text]
  else []

/-- ReaderPanel._read_epub_pages from ebook_reader (2).py: diagnostics
for missing libraries or a raised error; otherwise an optional
synthetic title page followed by the pages of each document section. -/
def readEpubPages : EpubExtract → List (List Char)
  | .missingLib => ["Libraries missing: ebooklib, beautifulsoup4".data]
  | .extractError e => ["Error reading EPUB: ".data ++ e]
  | .content title sections =>
    (match title with
     | some t => ["Title: ".data ++ t]
     | none => []) ++ sections.flatMap epubSectionPages

/-- MainFrame._read_pdf from ebook_reader (3).py: a diagnostic when
pypdf is missing, the stringified exception when reading raised, and
otherwise exactly the physical pages whose extracted text strips to
non-empty, in page order.  Unlike _read_pdf_pages of ebook_reader
(2).py there is no fallback page: a document with no extractable text
yields the empty sequence. -/
def readPdf3Pages : PdfExtract → List (List Char)
  | .missingLib => ["Please install pypdf".data]
  | .extractError e => [e]
  | .pages ps => ps.filter keepPdfPage

/-- Per-section body of the item loop in MainFrame._read_epub from
ebook_reader (3).py: a section is kept exactly when its raw text is
longer than 200 characters, and a kept section is appended verbatim;
there is no chunking. -/
def epubSection3Pages (text : List Char) : List (List Char) :=
  if 200 < text.length then [text] else []

/-- MainFrame._read_epub from ebook_reader (3).py: a diagnostic when
the libraries are missing, the stringified exception when reading
raised, and otherwise the kept sections in document order.  The title
metadata is ignored by this variant. -/
def readEpub3Pages : EpubExtract → List (List Char)
  | .missingLib => ["Please install ebooklib beautifulsoup4".data]
  | .extractError e => [e]
  | .content _ sections => sections.flatMap epubSection3Pages

/-- Input of ReaderPanel._load_file from ebook_reader (2).py, after the
extension dispatch: the recognized format together with the outcome of
its extraction step, an unsupported extension, or an exception escaping
the try block (for example from open). -/
inductive LoadSource
  | txt (content : List Char)
  | pdf (x : PdfExtract)
  | epub (x : EpubExtract)
  | unsupported
  | loadError (msg : List Char)

/-- Marks the sources handled by the except branch of _load_file. -/
def LoadSource.isError : LoadSource → Bool
  | .loadError _ => true
  | _ => false

/-- The new_pages value computed inside the try block of _load_file.
LoadSource.loadError never reaches this point; it is given the unused
value []. -/
def extractPages : LoadSource → List (List Char)
  | .txt content => readTxtPages content
  | .pdf x => readPdfPages x
  | .epub x => readEpubPages x
  | .unsupported => ["Unsupported file format.".data]
  | .loadError _ => []

/-- State of ReaderPanel: the loaded pages and the current page index. -/
structure ReaderState where
  pages : List (List Char)
  idx : Nat
deriving DecidableEq

/-- The placeholder page substituted by _load_file when extraction
yields no pages. -/
def placeholderText : List Char := "(Empty Book or Extraction Failed)".data

/-- ReaderPanel._load_file from ebook_reader (2).py: on the success path
substitute the placeholder page when extraction yields no pages and
reset the index to 0; on the except path install a single error page
and reset the index to 0. -/
def loadFile (src : LoadSource) : ReaderState :=
  match src with
  | .loadError e => { pages := ["Error loading file: ".data ++ e], idx := 0 }
  | src =>
    let newPages := extractPages src
    { pages := if newPages.isEmpty then [placeholderText] else newPages,
      idx := 0 }

/-- The page displayed by _update_display: pages[current_page_idx]. -/
def currentPage (st : ReaderState) : List Char := st.pages.getD st.idx []

/-- Navigability flag from _update_display: the Prev button is enabled
exactly when current_page_idx > 0. -/
def hasPrevious (st : ReaderState) : Bool := 0 < st.idx

/-- Navigability flag from _update_display: the Next button is enabled
exactly when current_page_idx < total - 1. -/
def hasNext (st : ReaderState) : Bool := st.idx < st.pages.length - 1

/-- Index clamp performed by _update_display on a non-empty page list:
current_page_idx := max(0, min(current_page_idx, total - 1)); the max
with 0 is trivial over Nat. -/
def clampIdx (st : ReaderState) : ReaderState :=
  if st.pages.length = 0 then st
  else { st with idx := min st.idx (st.pages.length - 1) }

/-- State of TTSService as observed across the interleaved executions of
speak, stop and the worker thread body.  engineOk records whether
pyttsx3.init() succeeded in the constructor (self.engine is not None);
isSpeaking is the shared flag; pending holds the texts of spawned worker
threads that have not yet finished; audio is the sequence of utterances
actually synthesized, in completion order; stopCalls counts invocations
of the stop method. -/
structure TTSState where
  engineOk : Bool
  isSpeaking : Bool
  pending : List (List Char)
  audio : List (List Char)
  stopCalls : Nat
deriving DecidableEq

/-- TTSService.stop from ebook_reader (1).py and ebook_reader (2).py:
if the shared engine exists and the flag is set, call engine.stop() on
the shared idle engine and clear the flag.  The call has no effect on a
worker thread, which synthesizes on its own fresh engine instance. -/
def ttsStop (s : TTSState) : TTSState :=
  if s.engineOk && s.isSpeaking then
    { s with stopCalls := s.stopCalls + 1, isSpeaking := false }
  else { s with stopCalls := s.stopCalls + 1 }

/-- TTSService.speak: return immediately if the engine is missing;
otherwise call stop when the flag is set, set the flag, and start a
worker thread for the text. -/
def ttsSpeak (text : List Char) (s : TTSState) : TTSState :=
  if s.engineOk = false then s
  else
    let s1 := if s.isSpeaking then ttsStop s else s
    { s1 with isSpeaking := true, pending := s1.pending ++ [text] }

/-- TTSService._speak_thread: the try block creates a fresh engine and
synthesizes the text (the outcome parameter records whether any of
init, say or runAndWait raised); the except branch only prints; the
finally branch clears the flag in every case. -/
def speakThread (outcome : Except (List Char) Unit) (text : List Char)
    (s : TTSState) : TTSState :=
  let afterTry :=
    match outcome with
    | .ok _ => { s with audio := s.audio ++ [text] }
    | .error _ => s
  { afterTry with isSpeaking := false }

/-- A worker thread for text runs to completion: it leaves the pending
set and executes _speak_thread.  A finish event for a text with no
pending worker is a no-op. -/
def ttsFinish (outcome : Except (List Char) Unit) (text : List Char)
    (s : TTSState) : TTSState :=
  if text ∈ s.pending then
    speakThread outcome text { s with pending := s.pending.erase text }
  else s

/-- Events of the speech coordinator interleaving model: a speak call
from the UI thread, the completion of a spawned worker thread with its
synthesis outcome, and a stop call. -/
inductive TTSEvent
  | speak (text : List Char)
  | finish (outcome : Except (List Char) Unit) (text : List Char)
  | stop

/-- One interleaving step. -/
def ttsStep (s : TTSState) : TTSEvent → TTSState
  | .speak t => ttsSpeak t s
  | .finish o t => ttsFinish o t s
  | .stop => ttsStop s

/-- Run a sequence of interleaved events. -/
def ttsRun (s : TTSState) (evs : List TTSEvent) : TTSState :=
  evs.foldl ttsStep s

/-- TTSService.__init__ with a working engine: not speaking, no worker,
no audio produced, no stop calls. -/
def ttsInit : TTSState :=
  { engineOk := true, isSpeaking := false, pending := [], audio := [],
    stopCalls := 0 }

/-- Combined state of a ReaderPanel holding its TTSService. -/
structure PanelState where
  reader : ReaderState
  tts : TTSState
deriving DecidableEq

/-- ReaderPanel.on_next_page from ebook_reader (2).py: when not at the
last page, increment the index, call the stop method of the speech
service, and refresh the display (whose clamp is applied to the new
index). -/
def onNextPage (s : PanelState) : PanelState :=
  if s.reader.idx < s.reader.pages.length - 1 then
    { reader := clampIdx { s.reader with idx := s.reader.idx + 1 },
      tts := ttsStop s.tts }
  else s

/-- ReaderPanel.on_prev_page from ebook_reader (2).py: when not at the
first page, decrement the index, call the stop method of the speech
service, and refresh the display. -/
def onPrevPage (s : PanelState) : PanelState :=
  if 0 < s.reader.idx then
    { reader := clampIdx { s.reader with idx := s.reader.idx - 1 },
      tts := ttsStop s.tts }
  else s

/-- ReaderPanel.on_next from ebook_reader (3).py: when not at the last
page, increment the index and refresh the display; the speech service
is not touched. -/
def onNext3 (s : PanelState) : PanelState :=
  if s.reader.idx < s.reader.pages.length - 1 then
    { s with reader := { s.reader with idx := s.reader.idx + 1 } }
  else s

/-- ReaderPanel.on_prev from ebook_reader (3).py: when not at the first
page, decrement the index and refresh the display; the speech service
is not touched. -/
def onPrev3 (s : PanelState) : PanelState :=
  if 0 < s.reader.idx then
    { s with reader := { s.reader with idx := s.reader.idx - 1 } }
  else s

/-- Leftmost match position of q inside s, or none: the helper behind
Python str.find restricted to a suffix. -/
def subFindAux (q : List Char) : List Char → Option Nat
  | [] => if q.isPrefixOf ([] : List Char) then some 0 else none
  | a :: t =>
    if q.isPrefixOf (a :: t) then some 0
    else (subFindAux q t).map (· + 1)

/-- Python h.find(q, start): the least position p ≥ start at which q
occurs in h, or none.  The source only calls it with a non-empty q. -/
def pyFind (h q : List Char) (start : Nat) : Option Nat :=
  (subFindAux q (h.drop start)).map (· + start)

/-- Observable outcome of ReaderPanel.on_search: an early return on an
empty query, the not-found message box, or a match selected at a
position. -/
inductive SearchResult
  | noop
  | notFound
  | found (pos : Nat)
deriving DecidableEq

/-- ReaderPanel.on_search from ebook_reader (1).py and ebook_reader.py,
with the text control contents and insertion point taken as parameters:
reject an empty query; lowercase haystack and query; search from
insertion point + 1; on failure retry once from 0; report the final
outcome. -/
def onSearch (fullText query : List Char) (insertionPoint : Nat) :
    SearchResult :=
  if query.isEmpty then .noop
  else
    match pyFind (pyLower fullText) (pyLower query) (insertionPoint + 1) with
    | some p => .found p
    | none =>
      match pyFind (pyLower fullText) (pyLower query) 0 with
      | some p => .found p
      | none => .notFound

/-- q occurs in h at position i. -/
def occursAt (h q : List Char) (i : Nat) : Bool := q.isPrefixOf (h.drop i)

theorem chunkTextFuel_flatten (c : Nat) (hc : c ≠ 0) :
    ∀ (fuel : Nat) (t : List Char), t.length ≤ fuel →
      (chunkTextFuel fuel t c).flatten = t := by
  intro fuel
  induction fuel with
  | zero =>
    intro t ht
    have : t = [] := List.eq_nil_of_length_eq_zero (Nat.le_zero.mp ht)
    subst this
    rfl
  | succ n ih =>
    intro t ht
    cases t with
    | nil => rfl
    | cons a t' =>
      have hdrop : ((a :: t').drop c).length ≤ n := by
        simp only [List.length_drop, List.length_cons]
        have : 0 < c := Nat.pos_of_ne_zero hc
        simp only [List.length_cons] at ht
        omega
      simp only [chunkTextFuel, List.flatten_cons, ih _ hdrop,
        List.take_append_drop]

theorem chunkTextFuel_dropLast_length (c : Nat) (hc : c ≠ 0) :
    ∀ (fuel : Nat) (t : List Char) (p : List Char), t.length ≤ fuel →
      p ∈ (chunkTextFuel fuel t c).dropLast → p.length = c := by
  intro fuel
  induction fuel with
  | zero =>
    intro t p ht hp
    have : t = [] := List.eq_nil_of_length_eq_zero (Nat.le_zero.mp ht)
    subst this
    simp [chunkTextFuel] at hp
  | succ n ih =>
    intro t p ht hp
    cases t with
    | nil => simp [chunkTextFuel] at hp
    | cons a t' =>
      by_cases hd : (a :: t').drop c = []
      · have hrest : chunkTextFuel n ((a :: t').drop c) c = [] := by
          rw [hd]; cases n <;> rfl
        simp [chunkTextFuel, hrest] at hp
      · have hlen : c < (a :: t').length := by
          by_contra hcon
          exact hd (List.drop_eq_nil_of_le (Nat.le_of_not_lt hcon))
        have hne : chunkTextFuel n ((a :: t').drop c) c ≠ [] := by
          have hd1 : 0 < ((a :: t').drop c).length := List.length_pos.mpr hd
          have hn : 0 < n := by
            simp only [List.length_drop, List.length_cons] at hd1
            simp only [List.length_cons] at ht
            omega
          cases hn' : n with
          | zero => omega
          | succ m =>
            cases he : (a :: t').drop c with
            | nil => exact absurd he hd
            | cons b l => simp [chunkTextFuel]
        rw [chunkTextFuel, List.dropLast_cons_of_ne_nil hne] at hp
        rcases List.mem_cons.mp hp with h | h
        · subst h
          simp only [List.length_take]
          omega
        · have hdl : ((a :: t').drop c).length ≤ n := by
            simp only [List.length_drop, List.length_cons]
            simp only [List.length_cons] at ht
            have : 0 < c := Nat.pos_of_ne_zero hc
            omega
          exact ih _ _ hdl h

theorem chunkTextFuel_mem_length (c : Nat) :
    ∀ (fuel : Nat) (t : List Char) (p : List Char),
      p ∈ chunkTextFuel fuel t c → p.length ≤ c := by
  intro fuel
  induction fuel with
  | zero => intro t p hp; simp [chunkTextFuel] at hp
  | succ n ih =>
    intro t p hp
    cases t with
    | nil => simp [chunkTextFuel] at hp
    | cons a t' =>
      rcases List.mem_cons.mp hp with h | h
      · subst h
        simp only [List.length_take]
        omega
      · exact ih _ _ h

/-- Pages of chunkText never exceed the chunk size. -/
theorem chunkText_mem_length (t : List Char) (c : Nat) (p : List Char)
    (hp : p ∈ chunkText t c) : p.length ≤ c := by
  unfold chunkText at hp
  by_cases hc : c = 0
  · simp [hc] at hp
  · rw [if_neg hc] at hp
    exact chunkTextFuel_mem_length c _ _ _ hp

/-- C1.  For every text t and chunk size c > 0: concatenating the pages
of chunkText t c reconstructs t exactly, every page except possibly the
last has length exactly c, and the empty text yields zero pages. -/
theorem c1_paginate_lossless (t : List Char) (c : Nat) (hc : 0 < c) :
    (chunkText t c).flatten = t
    ∧ (∀ p ∈ (chunkText t c).dropLast, p.length = c)
    ∧ chunkText [] c = [] := by
  have hc' : c ≠ 0 := Nat.pos_iff_ne_zero.mp hc
  refine ⟨?_, ?_, ?_⟩
  · unfold chunkText
    rw [if_neg hc']
    exact chunkTextFuel_flatten c hc' _ t (Nat.le_refl _)
  · intro p hp
    unfold chunkText at hp
    rw [if_neg hc'] at hp
    exact chunkTextFuel_dropLast_length c hc' _ t p (Nat.le_refl _) hp
  · unfold chunkText
    rw [if_neg hc']
    rfl

/-- Witness for C1 at the concrete text "abcde" with chunk size 2. -/
theorem c1_paginate_lossless_witness :
    (chunkText "abcde".data 2).flatten = "abcde".data :=
  (c1_paginate_lossless "abcde".data 2 (by decide)).1

/-- C10.  Whatever the outcome of the synthesis calls in the try block
of _speak_thread, normal completion or any exception, the finally
branch resets is_speaking to false; the worker never touches the
pending bookkeeping or the stop counter. -/
theorem c10_finally_resets_flag (outcome : Except (List Char) Unit)
    (text : List Char) (s : TTSState) :
    (speakThread outcome text s).isSpeaking = false
    ∧ (speakThread outcome text s).pending = s.pending
    ∧ (speakThread outcome text s).stopCalls = s.stopCalls := by
  cases outcome <;> exact ⟨rfl, rfl, rfl⟩

/-- Counterexample to C6 as stated: after speak x then speak y, the
worker already spawned for x still synthesizes on its own fresh engine,
so the audio of x is produced as well; the final audio log holds both
utterances, not only the audio of y. -/
theorem c6_supersede_cex :
    "x".data ∈ (ttsRun ttsInit [.speak "x".data, .speak "y".data,
      .finish (.ok ()) "x".data, .finish (.ok ()) "y".data]).audio
    ∧ (ttsRun ttsInit [.speak "x".data, .speak "y".data,
      .finish (.ok ()) "x".data, .finish (.ok ()) "y".data]).audio
      = ["x".data, "y".data] := by decide

/-- C6 amended.  speak y after speak x does invoke stop, but stop only
resets the shared flag and stops the idle shared engine; the worker for
x keeps its fresh engine, so in the interleaving in which both workers
run to completion the audio of x and of y are both produced, in order. -/
theorem c6_amended_both_audible (x y : List Char) :
    (ttsRun ttsInit [.speak x, .speak y,
      .finish (.ok ()) x, .finish (.ok ()) y]).audio = [x, y]
    ∧ (ttsRun ttsInit [.speak x, .speak y,
      .finish (.ok ()) x, .finish (.ok ()) y]).stopCalls = 1 := by
  simp [ttsRun, ttsStep, ttsSpeak, ttsStop, ttsFinish, speakThread,
    ttsInit, List.mem_cons, List.erase_cons_head]

/-- Counterexample to C9 as stated: in ebook_reader (3).py, on_next
moves the index without calling the stop method of the speech service,
so a speaking flag survives the navigation and no stop call is
recorded. -/
theorem c9_nav_cancels_cex :
    (onNext3 ⟨⟨["a".data, "b".data], 0⟩,
        ⟨true, true, ["a".data], [], 0⟩⟩).reader.idx = 1
    ∧ (onNext3 ⟨⟨["a".data, "b".data], 0⟩,
        ⟨true, true, ["a".data], [], 0⟩⟩).tts.isSpeaking = true
    ∧ (onNext3 ⟨⟨["a".data, "b".data], 0⟩,
        ⟨true, true, ["a".data], [], 0⟩⟩).tts.stopCalls = 0 := by decide

/-- C9 amended.  In the page-view variant ebook_reader (2).py every
index-moving navigation invokes the stop method of the speech service
exactly once, and afterwards is_speaking can remain set only when the
shared engine was never constructed; in ebook_reader (3).py navigation
leaves the speech service untouched. -/
theorem c9_amended_variant2_cancels (s : PanelState) :
    (s.reader.idx < s.reader.pages.length - 1 →
      (onNextPage s).tts.stopCalls = s.tts.stopCalls + 1
      ∧ (onNextPage s).tts.isSpeaking = (!s.tts.engineOk && s.tts.isSpeaking))
    ∧ (0 < s.reader.idx →
      (onPrevPage s).tts.stopCalls = s.tts.stopCalls + 1
      ∧ (onPrevPage s).tts.isSpeaking = (!s.tts.engineOk && s.tts.isSpeaking))
    ∧ (onNext3 s).tts = s.tts
    ∧ (onPrev3 s).tts = s.tts := by
  refine ⟨?_, ?_, ?_, ?_⟩
  · intro h
    simp only [onNextPage, if_pos h]
    cases he : s.tts.engineOk <;> cases hs : s.tts.isSpeaking <;>
      simp [ttsStop, he, hs]
  · intro h
    simp only [onPrevPage, if_pos h]
    cases he : s.tts.engineOk <;> cases hs : s.tts.isSpeaking <;>
      simp [ttsStop, he, hs]
  · unfold onNext3
    split <;> rfl
  · unfold onPrev3
    split <;> rfl

/-- Witness for the amended C9 at a concrete two-page state with a
speaking service. -/
theorem c9_amended_variant2_cancels_witness :
    (onNextPage ⟨⟨["a".data, "b".data], 0⟩,
        ⟨true, true, ["a".data], [], 0⟩⟩).tts.stopCalls = 0 + 1 :=
  ((c9_amended_variant2_cancels ⟨⟨["a".data, "b".data], 0⟩,
      ⟨true, true, ["a".data], [], 0⟩⟩).1 (by decide)).1

theorem loadFile_eq_of_not_error (src : LoadSource)
    (h : src.isError = false) :
    loadFile src =
      { pages := if (extractPages src).isEmpty then [placeholderText]
                 else extractPages src,
        idx := 0 } := by
  cases src with
  | loadError e => simp [LoadSource.isError] at h
  | txt c => rfl
  | pdf x => rfl
  | epub x => rfl
  | unsupported => rfl

/-- Counterexample to C3 as stated: in the empty-extraction case the
placeholder page installed by _load_file reads
"(Empty Book or Extraction Failed)", not "empty or extraction
failed". -/
theorem c3_placeholder_text_cex :
    currentPage (loadFile (.txt []))
      = "(Empty Book or Extraction Failed)".data
    ∧ currentPage (loadFile (.txt []))
      ≠ "empty or extraction failed".data := by decide

/-- C3 amended.  Every load path leaves the reader valid: the page list
is never empty, the index is reset to 0, and on a non-raising path
whose extraction yields no pages the current page is the placeholder
"(Empty Book or Extraction Failed)" with both navigability flags
false. -/
theorem c3_amended_valid_state (src : LoadSource) :
    (loadFile src).pages ≠ []
    ∧ (loadFile src).idx = 0
    ∧ (src.isError = false → extractPages src = [] →
        currentPage (loadFile src) = placeholderText
        ∧ hasPrevious (loadFile src) = false
        ∧ hasNext (loadFile src) = false) := by
  by_cases he : src.isError = true
  · cases src with
    | loadError e =>
      refine ⟨by simp [loadFile], rfl, fun h => ?_⟩
      rw [he] at h
      exact absurd h (by simp)
    | txt c => simp [LoadSource.isError] at he
    | pdf x => simp [LoadSource.isError] at he
    | epub x => simp [LoadSource.isError] at he
    | unsupported => simp [LoadSource.isError] at he
  · have he' : src.isError = false := by
      cases hb : src.isError
      · rfl
      · exact absurd hb he
    rw [loadFile_eq_of_not_error src he']
    refine ⟨?_, rfl, fun _ hext => ?_⟩
    · by_cases hemp : (extractPages src).isEmpty
      · simp [hemp]
      · have : extractPages src ≠ [] := by
          intro hnil
          rw [hnil] at hemp
          exact hemp rfl
        simp [Bool.not_eq_true] at hemp
        simp [hemp, this]
    · rw [hext]
      exact ⟨rfl, rfl, rfl⟩

/-- Witness for the amended C3 on loading an empty text file. -/
theorem c3_amended_valid_state_witness :
    hasNext (loadFile (.txt [])) = false :=
  (((c3_amended_valid_state (.txt [])).2.2 rfl (by decide)).2.2)

theorem dropWhile_ws_replicate (c : Char) (hc : c.isWhitespace = false)
    (n : Nat) :
    List.dropWhile Char.isWhitespace (List.replicate n c)
      = List.replicate n c := by
  cases n with
  | zero => rfl
  | succ m => simp [List.replicate_succ, List.dropWhile_cons, hc]

theorem pyStrip_replicate (c : Char) (hc : c.isWhitespace = false)
    (n : Nat) :
    pyStrip (List.replicate n c) = List.replicate n c := by
  unfold pyStrip
  rw [dropWhile_ws_replicate c hc, List.reverse_replicate,
    dropWhile_ws_replicate c hc, List.reverse_replicate]

/-- Counterexample to C2 as stated: _read_pdf_pages keeps the raw text
of each physical page without chunking, so an extracted page of 3001
characters becomes a Page longer than the 3000-character chunk size. -/
theorem c2_page_bound_cex :
    ∃ p ∈ readPdfPages (.pages [List.replicate 3001 'a']),
      3000 < p.length := by
  have hrep : List.replicate 3001 'a' = 'a' :: List.replicate 3000 'a' := rfl
  have hk : keepPdfPage (List.replicate 3001 'a') = true := by
    rw [keepPdfPage, pyStrip_replicate 'a' (by decide) 3001, hrep]
    rfl
  have hfil : List.filter keepPdfPage [List.replicate 3001 'a']
      = [List.replicate 3001 'a'] := by
    simp only [List.filter_cons, hk, if_true, List.filter_nil]
  have hres : readPdfPages (.pages [List.replicate 3001 'a'])
      = [List.replicate 3001 'a'] := by
    simp only [readPdfPages]
    rw [hfil]
    rfl
  refine ⟨List.replicate 3001 'a', ?_, by rw [List.length_replicate]; omega⟩
  rw [hres]
  exact List.mem_singleton.mpr rfl

theorem epubSectionPages_length (text p : List Char)
    (hp : p ∈ epubSectionPages text) : p.length ≤ 3000 := by
  unfold epubSectionPages at hp
  by_cases h1 : 100 < (pyStrip text).length
  · rw [if_pos h1] at hp
    by_cases h2 : 3000 < text.length
    · rw [if_pos h2] at hp
      exact chunkText_mem_length _ _ _ hp
    · rw [if_neg h2] at hp
      simp only [List.mem_singleton] at hp
      subst hp
      omega
  · rw [if_neg h1] at hp
    simp at hp

/-- C2 amended.  Pages from the plain-text path, and EPUB pages other
than the synthetic title page, respect the 3000-character chunk size;
PDF pages carry the raw text of a physical page and may exceed it. -/
theorem c2_amended_page_bound :
    (∀ (content p : List Char), p ∈ readTxtPages content →
        p.length ≤ 3000)
    ∧ (∀ (sections : List (List Char)) (p : List Char),
        p ∈ readEpubPages (.content none sections) → p.length ≤ 3000)
    ∧ (∀ (title : List Char) (sections : List (List Char)) (p : List Char),
        p ∈ readEpubPages (.content (some title) sections) →
          p = "Title: ".data ++ title ∨ p.length ≤ 3000) := by
  refine ⟨?_, ?_, ?_⟩
  · intro content p hp
    exact chunkText_mem_length _ _ _ hp
  · intro sections p hp
    simp only [readEpubPages, List.nil_append, List.mem_flatMap] at hp
    obtain ⟨sec, _, hsec⟩ := hp
    exact epubSectionPages_length _ _ hsec
  · intro title sections p hp
    simp only [readEpubPages, List.singleton_append, List.mem_cons,
      List.mem_flatMap] at hp
    rcases hp with h | ⟨sec, _, hsec⟩
    · exact Or.inl h
    · exact Or.inr (epubSectionPages_length _ _ hsec)

/-- Witness for the amended C2 at the concrete text "hi". -/
theorem c2_amended_page_bound_witness : ("hi".data).length ≤ 3000 :=
  c2_amended_page_bound.1 "hi".data "hi".data (by decide)

/-- Counterexample to C7 as stated: MainFrame._read_pdf of
ebook_reader (3).py, cited by the claim, has no diagnostic fallback,
so a PDF whose only page extracts to whitespace yields the empty
sequence, not a single diagnostic section; ebook_reader (2).py does
substitute its diagnostic page on the same input. -/
theorem c7_pdf_diag_cex :
    readPdf3Pages (.pages [" ".data]) = []
    ∧ readPdfPages (.pages [" ".data])
      = ["No text found in PDF.".data] := by decide

/-- C7 amended.  Both variants keep, in page order, exactly the
physical pages whose stripped text is non-empty, an order-preserving
sublist of the extraction; on a document-wide empty extraction
_read_pdf_pages of ebook_reader (2).py returns the single diagnostic
page while _read_pdf of ebook_reader (3).py returns the empty
sequence; loading a PDF whose extractor reports one empty page and one
page with text yields exactly that one page. -/
theorem c7_pdf_drop_empty (ps : List (List Char)) :
    (ps.filter keepPdfPage ≠ [] →
      readPdfPages (.pages ps) = ps.filter keepPdfPage
      ∧ List.Sublist (readPdfPages (.pages ps)) ps)
    ∧ (ps.filter keepPdfPage = [] →
      readPdfPages (.pages ps) = ["No text found in PDF.".data])
    ∧ readPdf3Pages (.pages ps) = ps.filter keepPdfPage
    ∧ List.Sublist (readPdf3Pages (.pages ps)) ps
    ∧ (loadFile (.pdf (.pages ["".data, "Some text".data]))).pages
      = ["Some text".data] := by
  refine ⟨?_, ?_, rfl, List.filter_sublist ps, by decide⟩
  · intro h
    have he : (ps.filter keepPdfPage).isEmpty = false := by
      cases hb : (ps.filter keepPdfPage).isEmpty
      · rfl
      · exact absurd (List.isEmpty_iff.mp hb) h
    have heq : readPdfPages (.pages ps) = ps.filter keepPdfPage := by
      simp only [readPdfPages]
      rw [he]
      rfl
    refine ⟨heq, ?_⟩
    rw [heq]
    exact List.filter_sublist ps
  · intro h
    simp only [readPdfPages]
    rw [h]
    rfl

/-- Witness for C7 on a one-page extraction with content. -/
theorem c7_pdf_drop_empty_witness :
    readPdfPages (.pages ["a".data]) = ["a".data] := by
  exact ((c7_pdf_drop_empty ["a".data]).1 (by decide)).1

/-- Counterexample to C8 as stated: MainFrame._read_epub of
ebook_reader (3).py, cited by the claim, never chunks: a kept section
of 3001 characters is appended verbatim as one page longer than the
3000-character chunk size instead of being split into windows. -/
theorem c8_epub_chunking_cex :
    readEpub3Pages (.content none [List.replicate 3001 'a'])
      = [List.replicate 3001 'a']
    ∧ 3000 < (List.replicate 3001 'a').length := by
  have hc : 200 < (List.replicate 3001 'a').length := by
    rw [List.length_replicate]
    omega
  constructor
  · simp only [readEpub3Pages, List.flatMap_cons, List.flatMap_nil,
      List.append_nil, epubSection3Pages, if_pos hc]
  · rw [List.length_replicate]
    omega

/-- C8 amended.  In ebook_reader (2).py sections whose stripped text
is at most the 100-character threshold contribute no pages, a kept
section longer than the chunk size is chunked on its own and a kept
short section becomes exactly one page; in ebook_reader (3).py
sections of raw length at most 200 are dropped and kept sections are
appended verbatim without chunking.  In both variants section
boundaries are never merged: the pages of concatenated section lists
are the concatenated page lists, and two kept 150 character sections
yield two pages even though both would fit in one 3000 character
chunk. -/
theorem c8_epub_sections :
    (∀ text : List Char, (pyStrip text).length ≤ 100 →
        epubSectionPages text = [])
    ∧ (∀ text : List Char, 100 < (pyStrip text).length →
        3000 < text.length → epubSectionPages text = chunkText text 3000)
    ∧ (∀ text : List Char, 100 < (pyStrip text).length →
        text.length ≤ 3000 → epubSectionPages text = [text])
    ∧ (∀ text : List Char, text.length ≤ 200 →
        epubSection3Pages text = [])
    ∧ (∀ text : List Char, 200 < text.length →
        epubSection3Pages text = [text])
    ∧ (∀ xs ys : List (List Char),
        readEpubPages (.content none (xs ++ ys))
          = readEpubPages (.content none xs)
            ++ readEpubPages (.content none ys))
    ∧ (∀ xs ys : List (List Char),
        readEpub3Pages (.content none (xs ++ ys))
          = readEpub3Pages (.content none xs)
            ++ readEpub3Pages (.content none ys))
    ∧ readEpubPages (.content none
        [List.replicate 150 'a', List.replicate 150 'b'])
      = [List.replicate 150 'a', List.replicate 150 'b'] := by
  refine ⟨?_, ?_, ?_, ?_, ?_, ?_, ?_, ?_⟩
  · intro text h
    simp [epubSectionPages, Nat.not_lt.mpr h]
  · intro text h1 h2
    simp [epubSectionPages, h1, h2]
  · intro text h1 h2
    simp [epubSectionPages, h1, Nat.not_lt.mpr h2]
  · intro text h
    simp [epubSection3Pages, Nat.not_lt.mpr h]
  · intro text h
    simp [epubSection3Pages, h]
  · intro xs ys
    simp [readEpubPages]
  · intro xs ys
    simp [readEpub3Pages]
  · have ha : pyStrip (List.replicate 150 'a') = List.replicate 150 'a' :=
      pyStrip_replicate 'a' (by decide) 150
    have hb : pyStrip (List.replicate 150 'b') = List.replicate 150 'b' :=
      pyStrip_replicate 'b' (by decide) 150
    simp only [readEpubPages, List.flatMap_cons, List.flatMap_nil,
      List.nil_append, List.append_nil, epubSectionPages, ha, hb,
      List.length_replicate]
    norm_num

/-- Witness for C8 on a section below the drop threshold. -/
theorem c8_epub_sections_witness :
    epubSectionPages (List.replicate 50 'a') = [] :=
  c8_epub_sections.1 (List.replicate 50 'a') (by decide)

theorem onNextPage_iterate (p : List (List Char)) (t : TTSState) :
    ∀ k : Nat,
      ((onNextPage)^[k] ⟨⟨p, 0⟩, t⟩).reader = ⟨p, min k (p.length - 1)⟩ := by
  intro k
  induction k with
  | zero => simp
  | succ n ih =>
    rw [Function.iterate_succ_apply']
    rcases hre : (onNextPage)^[n] (⟨⟨p, 0⟩, t⟩ : PanelState) with ⟨r, tt⟩
    rw [hre] at ih
    simp only at ih
    subst ih
    unfold onNextPage
    by_cases hg : min n (p.length - 1) < p.length - 1
    · rw [if_pos hg]
      have hL : p.length ≠ 0 := by omega
      simp only [clampIdx, hL, if_false]
      simp only [ReaderState.mk.injEq]
      exact ⟨by trivial, by omega⟩
    · rw [if_neg hg]
      simp only [ReaderState.mk.injEq]
      exact ⟨by trivial, by omega⟩

theorem onPrevPage_iterate (p : List (List Char)) :
    ∀ (k i : Nat) (s : PanelState), i ≤ p.length - 1 →
      s.reader = ⟨p, i⟩ → ((onPrevPage)^[k] s).reader = ⟨p, i - k⟩ := by
  intro k
  induction k with
  | zero =>
    intro i s _ hs
    simpa using hs
  | succ n ih =>
    intro i s hi hs
    rw [Function.iterate_succ_apply]
    by_cases h0 : 0 < i
    · have hL : p.length ≠ 0 := by omega
      have hfs : (onPrevPage s).reader = ⟨p, i - 1⟩ := by
        unfold onPrevPage
        rw [hs]
        simp only
        rw [if_pos h0]
        simp only [clampIdx, hs]
        simp only [hL, if_false, ReaderState.mk.injEq]
        exact ⟨by trivial, by omega⟩
      have := ih (i - 1) (onPrevPage s) (by omega) hfs
      rw [this]
      simp only [ReaderState.mk.injEq]
      exact ⟨by trivial, by omega⟩
    · have hi0 : i = 0 := by omega
      have hfs : onPrevPage s = s := by
        unfold onPrevPage
        rw [hs]
        simp only
        rw [if_neg (by omega : ¬ 0 < i)]
      rw [hfs]
      have := ih i s hi hs
      rw [this]
      simp only [ReaderState.mk.injEq]
      exact ⟨by trivial, by omega⟩

/-- C4.  next at the last page and previous at the first page are
no-ops; elsewhere on a valid index they move the index by exactly 1;
from index 0 the k-th next visit is exactly index k for every k below
the page count, has_next is false after length - 1 steps, and the same
number of previous steps retraces to index 0. -/
theorem c4_navigation (p : List (List Char)) (t : TTSState) (hp : p ≠ []) :
    (∀ s : PanelState, s.reader.pages = p →
        s.reader.idx = p.length - 1 → onNextPage s = s)
    ∧ (∀ s : PanelState, s.reader.idx = 0 → onPrevPage s = s)
    ∧ (∀ s : PanelState, s.reader.pages = p →
        s.reader.idx < p.length - 1 →
        (onNextPage s).reader.idx = s.reader.idx + 1)
    ∧ (∀ s : PanelState, s.reader.pages = p → 0 < s.reader.idx →
        s.reader.idx ≤ p.length - 1 →
        (onPrevPage s).reader.idx = s.reader.idx - 1)
    ∧ (∀ k : Nat, k < p.length →
        ((onNextPage)^[k] ⟨⟨p, 0⟩, t⟩).reader.idx = k)
    ∧ hasNext ((onNextPage)^[p.length - 1] ⟨⟨p, 0⟩, t⟩).reader = false
    ∧ ((onPrevPage)^[p.length - 1]
        ((onNextPage)^[p.length - 1] ⟨⟨p, 0⟩, t⟩)).reader.idx = 0 := by
  have hL : p.length ≠ 0 := by
    intro h
    exact hp (List.eq_nil_of_length_eq_zero h)
  refine ⟨?_, ?_, ?_, ?_, ?_, ?_, ?_⟩
  · intro s hpages hidx
    unfold onNextPage
    rw [if_neg (by rw [hpages, hidx]; omega)]
  · intro s hidx
    unfold onPrevPage
    rw [if_neg (by omega)]
  · intro s hpages hidx
    unfold onNextPage
    rw [if_pos (by rw [hpages]; exact hidx)]
    show (clampIdx { s.reader with idx := s.reader.idx + 1 }).idx
      = s.reader.idx + 1
    unfold clampIdx
    rw [if_neg (by simp [hpages]; exact hp)]
    simp [hpages]
    omega
  · intro s hpages h0 hub
    unfold onPrevPage
    rw [if_pos h0]
    show (clampIdx { s.reader with idx := s.reader.idx - 1 }).idx
      = s.reader.idx - 1
    unfold clampIdx
    rw [if_neg (by simp [hpages]; exact hp)]
    simp [hpages]
    omega
  · intro k hk
    rw [onNextPage_iterate]
    show min k (p.length - 1) = k
    omega
  · rw [onNextPage_iterate]
    have hlt : ¬ (min (p.length - 1) (p.length - 1) < p.length - 1) := by
      omega
    simp only [hasNext, decide_eq_false_iff_not]
    exact hlt
  · have hmid : ((onNextPage)^[p.length - 1]
        (⟨⟨p, 0⟩, t⟩ : PanelState)).reader = ⟨p, p.length - 1⟩ := by
      rw [onNextPage_iterate]
      simp only [ReaderState.mk.injEq]
      exact ⟨by trivial, by omega⟩
    rw [onPrevPage_iterate p (p.length - 1) (p.length - 1) _
      (Nat.le_refl _) hmid]
    show p.length - 1 - (p.length - 1) = 0
    omega

/-- Witness for C4 on a concrete three-page book: the first next step
lands on index 1. -/
theorem c4_navigation_witness :
    ((onNextPage)^[1]
      ⟨⟨["a".data, "b".data, "c".data], 0⟩, ttsInit⟩).reader.idx = 1 :=
  (c4_navigation ["a".data, "b".data, "c".data] ttsInit
    (by decide)).2.2.2.2.1 1 (by decide)

theorem bool_eq_false_of_not {b : Bool} (h : ¬ b = true) : b = false := by
  cases b
  · rfl
  · exact absurd rfl h

theorem subFindAux_some (q : List Char) :
    ∀ (s : List Char) (i : Nat), subFindAux q s = some i →
      q.isPrefixOf (s.drop i) = true
      ∧ ∀ j, j < i → q.isPrefixOf (s.drop j) = false := by
  intro s
  induction s with
  | nil =>
    intro i h
    simp only [subFindAux] at h
    split at h
    · next hq =>
      injection h with h
      subst h
      exact ⟨by simpa using hq, fun j hj => absurd hj (Nat.not_lt_zero j)⟩
    · simp at h
  | cons a t ih =>
    intro i h
    simp only [subFindAux] at h
    split at h
    · next hq =>
      injection h with h
      subst h
      exact ⟨by simpa using hq, fun j hj => absurd hj (Nat.not_lt_zero j)⟩
    · next hq =>
      rcases Option.map_eq_some'.mp h with ⟨i', hi', rfl⟩
      obtain ⟨h1, h2⟩ := ih i' hi'
      constructor
      · simpa [List.drop_succ_cons] using h1
      · intro j hj
        cases j with
        | zero =>
          simp only [List.drop_zero]
          exact bool_eq_false_of_not hq
        | succ j' =>
          simp only [List.drop_succ_cons]
          exact h2 j' (by omega)

theorem subFindAux_none (q : List Char) :
    ∀ (s : List Char), subFindAux q s = none →
      ∀ j, q.isPrefixOf (s.drop j) = false := by
  intro s
  induction s with
  | nil =>
    intro h j
    simp only [subFindAux] at h
    split at h
    · simp at h
    · next hq =>
      rw [List.drop_nil]
      exact bool_eq_false_of_not hq
  | cons a t ih =>
    intro h j
    simp only [subFindAux] at h
    split at h
    · simp at h
    · next hq =>
      have ht : subFindAux q t = none := Option.map_eq_none'.mp h
      cases j with
      | zero =>
        simp only [List.drop_zero]
        exact bool_eq_false_of_not hq
      | succ j' =>
        simp only [List.drop_succ_cons]
        exact ih ht j'

theorem pyFind_some (h q : List Char) (start p : Nat)
    (hf : pyFind h q start = some p) :
    start ≤ p ∧ occursAt h q p = true
    ∧ ∀ j, start ≤ j → j < p → occursAt h q j = false := by
  unfold pyFind at hf
  rcases Option.map_eq_some'.mp hf with ⟨i, hi, rfl⟩
  obtain ⟨h1, h2⟩ := subFindAux_some q _ i hi
  refine ⟨Nat.le_add_left start i, ?_, ?_⟩
  · unfold occursAt
    rw [List.drop_drop] at h1
    have he : start + i = i + start := by omega
    rw [he] at h1
    exact h1
  · intro j hsj hjp
    unfold occursAt
    have hji : j - start < i := by omega
    have h3 := h2 (j - start) hji
    rw [List.drop_drop] at h3
    have he : start + (j - start) = j := by omega
    rw [he] at h3
    exact h3

theorem pyFind_none (h q : List Char) (start : Nat)
    (hf : pyFind h q start = none) :
    ∀ j, start ≤ j → occursAt h q j = false := by
  intro j hj
  unfold pyFind at hf
  have hsub : subFindAux q (h.drop start) = none := Option.map_eq_none'.mp hf
  have h3 := subFindAux_none q _ hsub (j - start)
  rw [List.drop_drop] at h3
  have he : start + (j - start) = j := by omega
  rw [he] at h3
  exact h3

theorem onSearch_eq (fullText term : List Char) (k : Nat)
    (hterm : term.isEmpty = false) :
    onSearch fullText term k =
      match pyFind (pyLower fullText) (pyLower term) (k + 1) with
      | some p => .found p
      | none =>
        match pyFind (pyLower fullText) (pyLower term) 0 with
        | some p => .found p
        | none => .notFound := by
  unfold onSearch
  rw [hterm]
  simp only [Bool.false_eq_true, if_false]

theorem onSearch_forward (fullText term : List Char) (k p : Nat)
    (hterm : term.isEmpty = false)
    (hf : pyFind (pyLower fullText) (pyLower term) (k + 1) = some p) :
    onSearch fullText term k = .found p := by
  rw [onSearch_eq fullText term k hterm, hf]

theorem onSearch_wrap (fullText term : List Char) (k p : Nat)
    (hterm : term.isEmpty = false)
    (hf : pyFind (pyLower fullText) (pyLower term) (k + 1) = none)
    (hf0 : pyFind (pyLower fullText) (pyLower term) 0 = some p) :
    onSearch fullText term k = .found p := by
  rw [onSearch_eq fullText term k hterm, hf, hf0]

theorem onSearch_nf (fullText term : List Char) (k : Nat)
    (hterm : term.isEmpty = false)
    (hf : pyFind (pyLower fullText) (pyLower term) (k + 1) = none)
    (hf0 : pyFind (pyLower fullText) (pyLower term) 0 = none) :
    onSearch fullText term k = .notFound := by
  rw [onSearch_eq fullText term k hterm, hf, hf0]

/-- C5.  on_search is sound (a reported position is a case-insensitive
occurrence), searches strictly after the given offset first and returns
the least such occurrence, wraps to the least occurrence overall when
nothing follows the offset, answers not-found exactly when the term
occurs nowhere, rejects the empty term as a no-op, and on "abcabc" the
term "bc" is found at 4 from offset 3 and at 1 from offset 4. -/
theorem c5_search_wraparound (fullText term : List Char) (k : Nat)
    (hterm : term ≠ []) :
    (∀ p, onSearch fullText term k = .found p →
        occursAt (pyLower fullText) (pyLower term) p = true)
    ∧ (∀ p, k < p → occursAt (pyLower fullText) (pyLower term) p = true →
        (∀ j, k < j → occursAt (pyLower fullText) (pyLower term) j = true →
          p ≤ j) →
        onSearch fullText term k = .found p)
    ∧ ((∀ j, k < j →
          occursAt (pyLower fullText) (pyLower term) j = false) →
        ∀ p, occursAt (pyLower fullText) (pyLower term) p = true →
        (∀ j, occursAt (pyLower fullText) (pyLower term) j = true →
          p ≤ j) →
        onSearch fullText term k = .found p)
    ∧ (onSearch fullText term k = .notFound ↔
        ∀ j, occursAt (pyLower fullText) (pyLower term) j = false)
    ∧ (∀ (h2 : List Char) (k2 : Nat), onSearch h2 [] k2 = .noop)
    ∧ onSearch "abcabc".data "bc".data 3 = .found 4
    ∧ onSearch "abcabc".data "bc".data 4 = .found 1 := by
  have hql : term.isEmpty = false := by
    cases term with
    | nil => exact absurd rfl hterm
    | cons a l => rfl
  refine ⟨?_, ?_, ?_, ?_, fun h2 k2 => rfl, by decide, by decide⟩
  · intro p hp
    rcases hf : pyFind (pyLower fullText) (pyLower term) (k + 1) with _ | p1
    · rcases hf0 : pyFind (pyLower fullText) (pyLower term) 0 with _ | p0
      · rw [onSearch_nf fullText term k hql hf hf0] at hp
        exact absurd hp (by simp)
      · rw [onSearch_wrap fullText term k p0 hql hf hf0] at hp
        injection hp with hpp
        subst hpp
        exact (pyFind_some _ _ _ _ hf0).2.1
    · rw [onSearch_forward fullText term k p1 hql hf] at hp
      injection hp with hpp
      subst hpp
      exact (pyFind_some _ _ _ _ hf).2.1
  · intro p hkp hocc hmin
    rcases hf : pyFind (pyLower fullText) (pyLower term) (k + 1) with _ | p1
    · exfalso
      have hfalse := pyFind_none _ _ _ hf p (by omega)
      rw [hocc] at hfalse
      simp at hfalse
    · obtain ⟨hle, hocc1, hmin1⟩ := pyFind_some _ _ _ _ hf
      have hup : p ≤ p1 := hmin p1 (by omega) hocc1
      have hdown : ¬ p < p1 := by
        intro hlt
        have hfalse := hmin1 p (by omega) hlt
        rw [hocc] at hfalse
        simp at hfalse
      have hpp : p1 = p := by omega
      subst hpp
      exact onSearch_forward fullText term k p1 hql hf
  · intro hnone p hocc hmin
    have hf : pyFind (pyLower fullText) (pyLower term) (k + 1) = none := by
      rcases hf : pyFind (pyLower fullText) (pyLower term) (k + 1) with _ | p1
      · rfl
      · exfalso
        obtain ⟨hle, hocc1, _⟩ := pyFind_some _ _ _ _ hf
        have hfalse := hnone p1 (by omega)
        rw [hocc1] at hfalse
        simp at hfalse
    rcases hf0 : pyFind (pyLower fullText) (pyLower term) 0 with _ | p0
    · exfalso
      have hfalse := pyFind_none _ _ _ hf0 p (Nat.zero_le p)
      rw [hocc] at hfalse
      simp at hfalse
    · obtain ⟨_, hocc0, hmin0⟩ := pyFind_some _ _ _ _ hf0
      have hup : p ≤ p0 := hmin p0 hocc0
      have hdown : ¬ p < p0 := by
        intro hlt
        have hfalse := hmin0 p (Nat.zero_le p) hlt
        rw [hocc] at hfalse
        simp at hfalse
      have hpp : p0 = p := by omega
      subst hpp
      exact onSearch_wrap fullText term k p0 hql hf hf0
  · constructor
    · intro hnf j
      rcases hf : pyFind (pyLower fullText) (pyLower term) (k + 1) with _ | p1
      · rcases hf0 : pyFind (pyLower fullText) (pyLower term) 0 with _ | p0
        · exact pyFind_none _ _ _ hf0 j (Nat.zero_le j)
        · rw [onSearch_wrap fullText term k p0 hql hf hf0] at hnf
          exact absurd hnf (by simp)
      · rw [onSearch_forward fullText term k p1 hql hf] at hnf
        exact absurd hnf (by simp)
    · intro hall
      have hf : pyFind (pyLower fullText) (pyLower term) (k + 1) = none := by
        rcases hf : pyFind (pyLower fullText) (pyLower term) (k + 1)
          with _ | p1
        · rfl
        · exfalso
          obtain ⟨_, hocc1, _⟩ := pyFind_some _ _ _ _ hf
          rw [hall p1] at hocc1
          simp at hocc1
      have hf0 : pyFind (pyLower fullText) (pyLower term) 0 = none := by
        rcases hf0 : pyFind (pyLower fullText) (pyLower term) 0 with _ | p0
        · rfl
        · exfalso
          obtain ⟨_, hocc0, _⟩ := pyFind_some _ _ _ _ hf0
          rw [hall p0] at hocc0
          simp at hocc0
      exact onSearch_nf fullText term k hql hf hf0

/-- Witness for C5: the documented wraparound example, searching "bc"
in "abcabc" after offset 3. -/
theorem c5_search_wraparound_witness :
    onSearch "abcabc".data "bc".data 3 = .found 4 :=
  (c5_search_wraparound "abcabc".data "bc".data 3 (by decide)).2.2.2.2.2.1

end EbookReader
